import Mathlib

/-!
# Verification of the DeepDetect `MLLib` service-strategy core

Shallow embedding of `mllibstrategy.h` (class `dd::MLLib`): the exception
taxonomy, the `clear_full` repository reset, the constructor and move
constructor, and the two mutex-guarded measurement stores
(`_meas : unordered_map<string,double>` and
`_meas_per_iter : unordered_map<string,vector<double>>`) together with their
operations `add_meas`, `get_meas`, `collect_measures`, `add_meas_per_iter`,
`clear_all_meas_per_iter`, `collect_measures_history`.

Mutexes only serialize access in the C++ source; under a single thread of
execution each critical section is an atomic step, so the embedding drops the
locks and models each operation as a pure state transformer.  The
`unordered_map`s are embedded as association lists with the exact find /
update-in-place / insert behaviour of the source (a fresh key is appended; the
C++ container leaves its placement unspecified, and no claim depends on map
iteration order beyond "every key appears once").
-/

namespace DD

/-- Embedding of the C++ `double` values held by the measurement stores.  The
core never computes with them (it only stores, copies and returns them), so a
value is either the `std::numeric_limits<double>::quiet_NaN()` sentinel
returned by `get_meas` for an absent key, or an exact numeric payload. -/
inductive DDouble where
  | nan : DDouble
  | val : Int → DDouble
deriving DecidableEq, Repr

/-- The two exception kinds of `mllibstrategy.h` lines 36-59:
`MLLibBadParamException` and `MLLibInternalException`, each carrying only a
message string. -/
inductive MLLibException where
  | MLLibBadParamException (s : String)
  | MLLibInternalException (s : String)
deriving DecidableEq, Repr

/-- The part of the model descriptor `TMLModel` that `MLLib` itself reads:
the repository path `_repo` (spec section 6: "must expose at minimum a
repository path string"). -/
structure MLModelRepo where
  _repo : String
deriving DecidableEq, Repr

/-- State of `_meas`, the current-measures `unordered_map<string,double>`. -/
abbrev MeasState := List (String × DDouble)

/-- State of `_meas_per_iter`, the measure-history
`unordered_map<string,vector<double>>`. -/
abbrev HistState := List (String × List DDouble)

/-- Embedding of the `MLLib` class template state (lines 220-235): the two
connectors, the capability flags with their default member initializers, the
model, the library name, the two measurement maps and the training flag. -/
structure MLLib (I O M : Type) where
  _inputc : I
  _outputc : O
  _has_train : Bool := false
  _has_predict : Bool := true
  _mlmodel : M
  _libname : String := ""
  _meas : MeasState := []
  _meas_per_iter : HistState := []
  _tjob_running : Bool := false
  _online : Bool := false

/-- Constructor `MLLib(const TMLModel &mlmodel)` (lines 71-72): initializes
`_mlmodel` and sets `_tjob_running` to `false`; every other member takes its
default member initializer, and the connectors are default-constructed
(embedded via `Inhabited`). -/
def MLLib.ofModel {I O M : Type} [Inhabited I] [Inhabited O] (mlmodel : M) :
    MLLib I O M :=
  { _inputc := default
    _outputc := default
    _mlmodel := mlmodel
    _tjob_running := false }

/-- Move constructor `MLLib(MLLib &&mll)` (lines 77-79): its initializer list
copies exactly `_inputc`, `_outputc`, `_mlmodel`, `_meas` and
`_tjob_running.load()`; every member absent from the list is
default-initialized (`_has_train := false`, `_has_predict := true`,
`_libname := ""`, `_meas_per_iter := {}`, `_online := false`). -/
def MLLib.moveCtor {I O M : Type} (mll : MLLib I O M) : MLLib I O M :=
  { _inputc := mll._inputc
    _outputc := mll._outputc
    _mlmodel := mll._mlmodel
    _meas := mll._meas
    _tjob_running := mll._tjob_running }

/-- `MLLib::clear_full` (lines 101-108).  The filesystem primitive
`fileops::clear_directory` is an external collaborator (`utils/fileops.hpp`,
not part of this core); only its `int` return code reaches this function, so
the code is passed in as the argument `err`.  A thrown exception becomes an
`Except.error`. -/
def MLLib.clear_full {I O : Type} (mll : MLLib I O MLModelRepo) (err : Int) :
    Except MLLibException Unit :=
  if err > 0 then
    Except.error (MLLibException.MLLibBadParamException
      ("Failed opening directory " ++ mll._mlmodel._repo ++
        " for deleting files within"))
  else if err < 0 then
    Except.error (MLLibException.MLLibInternalException
      ("Failed deleting all files in directory " ++ mll._mlmodel._repo))
  else
    Except.ok ()

/-- `MLLib::clear_all_meas_per_iter` (lines 134-138): `_meas_per_iter.clear()`. -/
def clear_all_meas_per_iter (_st : HistState) : HistState := []

/-- `MLLib::add_meas_per_iter` (lines 145-156): find `meas`; if present,
`push_back` the value onto its vector in place; otherwise insert the
one-element vector `{l}` under `meas`. -/
def add_meas_per_iter (st : HistState) (meas : String) (l : DDouble) :
    HistState :=
  match st with
  | [] => [(meas, [l])]
  | (k, vs) :: rest =>
      if k = meas then (k, vs ++ [l]) :: rest
      else (k, vs) :: add_meas_per_iter rest meas l

/-- `MLLib::add_meas` (lines 180-187): find `meas`; if present, overwrite its
value in place; otherwise insert the pair `(meas, l)`. -/
def add_meas (st : MeasState) (meas : String) (l : DDouble) : MeasState :=
  match st with
  | [] => [(meas, l)]
  | (k, v) :: rest =>
      if k = meas then (k, l) :: rest
      else (k, v) :: add_meas rest meas l

/-- `MLLib::get_meas` (lines 194-201): find `meas` and return its value, or
`quiet_NaN()` when absent. -/
def get_meas (st : MeasState) (meas : String) : DDouble :=
  match st with
  | [] => DDouble.nan
  | (k, v) :: rest => if k = meas then v else get_meas rest meas

/-- Observer for the history store: the vector stored under `name` in
`_meas_per_iter`, `[]` when the key is absent (mirrors `find` on the map). -/
def histSeq (st : HistState) (name : String) : List DDouble :=
  match st with
  | [] => []
  | (k, vs) :: rest => if k = name then vs else histSeq rest name

/-- A value of the structured-value payload `APIData`.
Modelled from the spec: `apidata.h` is an external collaborator, specified in
section 6 only as an ordered/keyed container supporting keyed insertion
`add(key, value)` of scalars, sequences of scalars and nested containers. -/
inductive APIValue where
  | num (d : DDouble)
  | arr (ds : List DDouble)
  | obj (fields : List (String × APIValue))

/-- Modelled from the spec: the `APIData` payload as the ordered list of its
keyed fields. -/
abbrev APIData := List (String × APIValue)

/-- Modelled from the spec: `APIData::add(key, value)` keyed insertion,
recorded in field order. -/
def APIData.add (ad : APIData) (k : String) (v : APIValue) : APIData :=
  ad ++ [(k, v)]

/-- `MLLib::collect_measures_history` (lines 162-173): build a fresh
`APIData meas_hist`, and for each map entry `(name, vec)` in iteration order
`add` the field `name + "_hist"` holding `vec`; then `add` the whole object to
`ad` under `"measure_hist"`. -/
def collect_measures_history (st : HistState) (ad : APIData) : APIData :=
  let meas_hist : APIData :=
    st.foldl (fun acc p => APIData.add acc (p.1 ++ "_hist") (APIValue.arr p.2)) []
  APIData.add ad "measure_hist" (APIValue.obj meas_hist)

/-- `MLLib::collect_measures` (lines 207-218): build a fresh `APIData meas`,
and for each map entry `(name, value)` in iteration order `add` the field
`name` holding `value`; then `add` the whole object to `ad` under
`"measure"`. -/
def collect_measures (st : MeasState) (ad : APIData) : APIData :=
  let meas : APIData :=
    st.foldl (fun acc p => APIData.add acc p.1 (APIValue.num p.2)) []
  APIData.add ad "measure" (APIValue.obj meas)

/-- The operations of the strategy that touch the history store
`_meas_per_iter`: `add_meas_per_iter` and `clear_all_meas_per_iter` are the
only members that mutate it. -/
inductive HistOp where
  | add (meas : String) (l : DDouble)
  | clearAll
deriving DecidableEq, Repr

/-- One history-store operation as a state transformer. -/
def applyHistOp (st : HistState) : HistOp → HistState
  | HistOp.add meas l => add_meas_per_iter st meas l
  | HistOp.clearAll => clear_all_meas_per_iter st

/-- A sequence of history-store operations, applied in order. -/
def applyHistOps (st : HistState) (ops : List HistOp) : HistState :=
  ops.foldl applyHistOp st

/-- The current-measures store after a sequence of `add_meas` calls starting
from the freshly-constructed empty map. -/
def applyMeasOps (ops : List (String × DDouble)) : MeasState :=
  ops.foldl (fun st p => add_meas st p.1 p.2) []

/-- The value of the last `set` for `name` in a sequence of `set` calls,
`none` when `name` was never set. -/
def lastWrite : List (String × DDouble) → String → Option DDouble
  | [], _ => none
  | (k, v) :: rest, name =>
      match lastWrite rest name with
      | some w => some w
      | none => if k = name then some v else none

/-- C1: `clear_full` maps the directory-clear primitive's outcome to the
two-kind error taxonomy: a positive code raises `MLLibBadParamException`
naming the repository path, a negative code raises `MLLibInternalException`
naming the repository path, and zero returns normally with no value. -/
theorem clear_full_error_taxonomy {I O : Type} (mll : MLLib I O MLModelRepo)
    (err : Int) :
    (err > 0 → MLLib.clear_full mll err =
      Except.error (MLLibException.MLLibBadParamException
        ("Failed opening directory " ++ mll._mlmodel._repo ++
          " for deleting files within"))) ∧
    (err < 0 → MLLib.clear_full mll err =
      Except.error (MLLibException.MLLibInternalException
        ("Failed deleting all files in directory " ++ mll._mlmodel._repo))) ∧
    (err = 0 → MLLib.clear_full mll err = Except.ok ()) := by
  refine ⟨fun hpos => ?_, fun hneg => ?_, fun hzero => ?_⟩
  · simp [MLLib.clear_full, hpos]
  · have hnotpos : ¬ err > 0 := by omega
    simp [MLLib.clear_full, hnotpos, hneg]
  · subst hzero
    simp [MLLib.clear_full]

/-- A concrete strategy instance used to instantiate the `clear_full`
theorems. -/
def mllRepoExample : MLLib Unit Unit MLModelRepo :=
  { _inputc := ()
    _outputc := ()
    _mlmodel := { _repo := "/opt/models/svc" } }

/-- Witness for C1 at a concrete instance and the three concrete codes
`2`, `-3` and `0`. -/
theorem clear_full_error_taxonomy_witness :
    MLLib.clear_full mllRepoExample 2 =
      Except.error (MLLibException.MLLibBadParamException
        ("Failed opening directory " ++ "/opt/models/svc" ++
          " for deleting files within")) ∧
    MLLib.clear_full mllRepoExample (-3) =
      Except.error (MLLibException.MLLibInternalException
        ("Failed deleting all files in directory " ++ "/opt/models/svc")) ∧
    MLLib.clear_full mllRepoExample 0 = Except.ok () :=
  ⟨(clear_full_error_taxonomy mllRepoExample 2).1 (by decide),
   (clear_full_error_taxonomy mllRepoExample (-3)).2.1 (by decide),
   (clear_full_error_taxonomy mllRepoExample 0).2.2 rfl⟩

/-! ## Helper lemmas about the current-measures store -/

/-- One `add_meas` step as seen through `get_meas`: reading the written name
yields the written value, reading any other name is unchanged. -/
theorem get_meas_add_meas (st : MeasState) (k name : String) (v : DDouble) :
    get_meas (add_meas st k v) name = if name = k then v else get_meas st name := by
  induction st with
  | nil =>
      by_cases h : name = k
      · simp [add_meas, get_meas, h]
      · simp [add_meas, get_meas, h, Ne.symm h]
  | cons hd rest ih =>
      obtain ⟨ka, va⟩ := hd
      by_cases h1 : ka = k
      · subst h1
        by_cases h3 : name = ka
        · subst h3; simp [add_meas, get_meas]
        · simp [add_meas, get_meas, h3, Ne.symm h3]
      · by_cases h2 : ka = name
        · subst h2
          simp [add_meas, get_meas, h1, Ne.symm h1]
        · simp [add_meas, get_meas, h1, h2, ih]

/-- Folding a sequence of `add_meas` calls over any starting store: the value
read back is the last write to that name, or the starting store's value when
the sequence never writes the name. -/
theorem get_meas_foldl_add_meas (ops : List (String × DDouble)) (st : MeasState)
    (name : String) :
    get_meas (ops.foldl (fun s p => add_meas s p.1 p.2) st) name =
      (lastWrite ops name).getD (get_meas st name) := by
  induction ops generalizing st with
  | nil => simp [lastWrite]
  | cons p rest ih =>
      obtain ⟨k, v⟩ := p
      rw [List.foldl_cons]
      rw [ih (add_meas st k v) ]
      rw [get_meas_add_meas]
      cases hw : lastWrite rest name with
      | some w => simp [lastWrite, hw]
      | none =>
          by_cases h : k = name
          · subst h; simp [lastWrite, hw]
          · have h2 : ¬ name = k := Ne.symm h
            simp [lastWrite, hw, h, h2]

/-! ## Helper lemmas about the history store -/

/-- One `add_meas_per_iter` step as seen through `histSeq`: the written name's
sequence is extended by the one value at its end, every other name's sequence
is unchanged. -/
theorem histSeq_add_meas_per_iter (st : HistState) (name key : String)
    (l : DDouble) :
    histSeq (add_meas_per_iter st name l) key =
      if key = name then histSeq st key ++ [l] else histSeq st key := by
  induction st with
  | nil =>
      by_cases h : key = name
      · simp [add_meas_per_iter, histSeq, h]
      · simp [add_meas_per_iter, histSeq, h, Ne.symm h]
  | cons hd rest ih =>
      obtain ⟨ka, vs⟩ := hd
      by_cases h1 : ka = name
      · subst h1
        by_cases h3 : key = ka
        · subst h3; simp [add_meas_per_iter, histSeq]
        · simp [add_meas_per_iter, histSeq, h3, Ne.symm h3]
      · by_cases h2 : ka = key
        · subst h2
          simp [add_meas_per_iter, histSeq, h1, Ne.symm h1]
        · simp [add_meas_per_iter, histSeq, h1, h2, ih]

/-- A name absent from the history map has the empty stored sequence. -/
theorem histSeq_of_not_mem (st : HistState) (name : String)
    (h : name ∉ st.map Prod.fst) : histSeq st name = [] := by
  induction st with
  | nil => rfl
  | cons hd rest ih =>
      simp only [List.map_cons, List.mem_cons] at h
      push_neg at h
      obtain ⟨h1, h2⟩ := h
      simp [histSeq, Ne.symm h1, ih h2]

/-- C4: `get_meas` never fails: over any sequence of `add_meas` calls starting
from the fresh instance's empty store, a name never set reads back as the
quiet-NaN sentinel rather than an error, and a name set at least once reads
back as the value of its last set. -/
theorem get_meas_total (ops : List (String × DDouble)) (name : String) :
    (lastWrite ops name = none →
      get_meas (applyMeasOps ops) name = DDouble.nan) ∧
    (∀ v, lastWrite ops name = some v →
      get_meas (applyMeasOps ops) name = v) := by
  constructor
  · intro h
    rw [applyMeasOps, get_meas_foldl_add_meas, h]
    rfl
  · intro v h
    rw [applyMeasOps, get_meas_foldl_add_meas, h]
    rfl

/-- Witness for C4: after setting `loss` twice and `acc` once, the never-set
name `f1` reads back NaN and `loss` reads back its last written value. -/
theorem get_meas_total_witness :
    get_meas (applyMeasOps [("loss", DDouble.val 1), ("acc", DDouble.val 2),
      ("loss", DDouble.val 3)]) "f1" = DDouble.nan ∧
    get_meas (applyMeasOps [("loss", DDouble.val 1), ("acc", DDouble.val 2),
      ("loss", DDouble.val 3)]) "loss" = DDouble.val 3 :=
  ⟨(get_meas_total [("loss", DDouble.val 1), ("acc", DDouble.val 2),
      ("loss", DDouble.val 3)] "f1").1 (by decide),
   (get_meas_total [("loss", DDouble.val 1), ("acc", DDouble.val 2),
      ("loss", DDouble.val 3)] "loss").2 (DDouble.val 3) (by decide)⟩

/-- C5: `add_meas` is an upsert with last-writer-wins semantics: after the
calls `set(name, v1), ..., set(name, vn)` (n ≥ 1, i.e. the list of values has
last element `w`) a `get_meas` on `name` returns `w`, from any starting store;
and repeating the same `add_meas` call leaves the store unchanged. -/
theorem add_meas_last_writer_wins (st : MeasState) (name : String)
    (vs : List DDouble) (w : DDouble) (h : vs.getLast? = some w) :
    get_meas (vs.foldl (fun s v => add_meas s name v) st) name = w ∧
    (∀ v, add_meas (add_meas st name v) name v = add_meas st name v) := by
  constructor
  · induction vs generalizing st with
    | nil => simp at h
    | cons v rest ih =>
        cases rest with
        | nil =>
            simp only [List.getLast?_singleton, Option.some.injEq] at h
            subst h
            simp [get_meas_add_meas]
        | cons r t =>
            rw [List.getLast?_cons_cons] at h
            rw [List.foldl_cons]
            exact ih (add_meas st name v) h
  · intro v
    clear h
    induction st with
    | nil => simp [add_meas]
    | cons hd rest ih =>
        obtain ⟨k, u⟩ := hd
        by_cases hk : k = name
        · simp [add_meas, hk]
        · simp [add_meas, hk, ih]

/-- Witness for C5: setting `loss` to 1, then 2, then 7 reads back 7, and
repeating `set("loss", 7)` leaves the store unchanged. -/
theorem add_meas_last_writer_wins_witness :
    get_meas ([DDouble.val 1, DDouble.val 2, DDouble.val 7].foldl
      (fun s v => add_meas s "loss" v) []) "loss" = DDouble.val 7 ∧
    add_meas (add_meas [] "loss" (DDouble.val 7)) "loss" (DDouble.val 7) =
      add_meas [] "loss" (DDouble.val 7) :=
  ⟨(add_meas_last_writer_wins [] "loss"
      [DDouble.val 1, DDouble.val 2, DDouble.val 7] (DDouble.val 7)
      (by decide)).1,
   (add_meas_last_writer_wins [] "loss"
      [DDouble.val 1, DDouble.val 2, DDouble.val 7] (DDouble.val 7)
      (by decide)).2 (DDouble.val 7)⟩

/-- C6: `add_meas_per_iter` appends the value at the end of exactly the named
sequence, creating the fresh one-element sequence `[l]` when the name is
absent, and leaves every other name's sequence unchanged. -/
theorem add_meas_per_iter_appends (st : HistState) (name : String)
    (l : DDouble) :
    (histSeq (add_meas_per_iter st name l) name = histSeq st name ++ [l]) ∧
    (name ∉ st.map Prod.fst →
      histSeq (add_meas_per_iter st name l) name = [l]) ∧
    (∀ key, key ≠ name →
      histSeq (add_meas_per_iter st name l) key = histSeq st key) := by
  refine ⟨?_, fun habs => ?_, fun key hk => ?_⟩
  · simp [histSeq_add_meas_per_iter]
  · simp [histSeq_add_meas_per_iter, histSeq_of_not_mem st name habs]
  · simp [histSeq_add_meas_per_iter, hk]

/-- Witness for C6: appending 2 under the absent name `b` in the history
`{a ↦ [1]}` creates `[2]` under `b` and leaves `a`'s sequence unchanged,
and appending to `a` extends its sequence at the end. -/
theorem add_meas_per_iter_appends_witness :
    (histSeq (add_meas_per_iter [("a", [DDouble.val 1])] "a" (DDouble.val 9)) "a" =
      [DDouble.val 1] ++ [DDouble.val 9]) ∧
    ("b" ∉ ([("a", [DDouble.val 1])] : HistState).map Prod.fst ∧
      histSeq (add_meas_per_iter [("a", [DDouble.val 1])] "b" (DDouble.val 2)) "b" =
        [DDouble.val 2]) ∧
    ("a" ≠ "b" ∧
      histSeq (add_meas_per_iter [("a", [DDouble.val 1])] "b" (DDouble.val 2)) "a" =
        histSeq [("a", [DDouble.val 1])] "a") :=
  ⟨(add_meas_per_iter_appends [("a", [DDouble.val 1])] "a" (DDouble.val 9)).1,
   ⟨by decide,
    (add_meas_per_iter_appends [("a", [DDouble.val 1])] "b" (DDouble.val 2)).2.1
      (by decide)⟩,
   ⟨by decide,
    (add_meas_per_iter_appends [("a", [DDouble.val 1])] "b" (DDouble.val 2)).2.2
      "a" (by decide)⟩⟩

/-! ## Move construction (C2) -/

/-- A concrete source instance whose history map, capability flags and online
flag differ from the defaults, exercising the move constructor. -/
def mllMoveSrc : MLLib Unit Unit Unit :=
  { _inputc := ()
    _outputc := ()
    _mlmodel := ()
    _has_train := true
    _has_predict := false
    _online := true
    _libname := "caffe"
    _meas := [("f1", DDouble.val 5)]
    _meas_per_iter := [("loss", [DDouble.val 1, DDouble.val 2])]
    _tjob_running := true }

/-- C2 counterexample: the move constructor does not transfer all measurement
state and flags.  For the concrete source `mllMoveSrc` the moved-to instance
disagrees with the source on the measure-history map (reset to empty) and on
the `has_train`, `has_predict` and `online` flags (reset to their defaults),
so the conjunction claimed by C2 fails. -/
theorem moveCtor_not_full_transfer :
    ¬ ((MLLib.moveCtor mllMoveSrc)._meas = mllMoveSrc._meas ∧
       (MLLib.moveCtor mllMoveSrc)._meas_per_iter = mllMoveSrc._meas_per_iter ∧
       (MLLib.moveCtor mllMoveSrc)._tjob_running = mllMoveSrc._tjob_running ∧
       (MLLib.moveCtor mllMoveSrc)._has_train = mllMoveSrc._has_train ∧
       (MLLib.moveCtor mllMoveSrc)._has_predict = mllMoveSrc._has_predict ∧
       (MLLib.moveCtor mllMoveSrc)._online = mllMoveSrc._online) := by
  intro h
  have hh := h.2.1
  simp [MLLib.moveCtor, mllMoveSrc] at hh

/-- C2 amended: the move constructor transfers the connectors, the model, the
current-measures map and the `training_running` value, while the moved-to
instance's measure-history map is empty and its `has_train`, `has_predict`,
`online` flags (and `libname`) are reset to their default member initializers
regardless of the source. -/
theorem moveCtor_transfer {I O M : Type} (mll : MLLib I O M) :
    (MLLib.moveCtor mll)._inputc = mll._inputc ∧
    (MLLib.moveCtor mll)._outputc = mll._outputc ∧
    (MLLib.moveCtor mll)._mlmodel = mll._mlmodel ∧
    (MLLib.moveCtor mll)._meas = mll._meas ∧
    (MLLib.moveCtor mll)._tjob_running = mll._tjob_running ∧
    (MLLib.moveCtor mll)._meas_per_iter = [] ∧
    (MLLib.moveCtor mll)._has_train = false ∧
    (MLLib.moveCtor mll)._has_predict = true ∧
    (MLLib.moveCtor mll)._online = false :=
  ⟨rfl, rfl, rfl, rfl, rfl, rfl, rfl, rfl, rfl⟩

/-! ## History monotonicity over operation sequences (C3) -/

/-- C3 counterexample: the stored sequence for a name is not always a
prefix-extension of its earlier value over arbitrary operation sequences of
the strategy: running `clear_all_meas_per_iter` on the history `{loss ↦ [1]}`
leaves no sequence of which `[1]` is a prefix. -/
theorem hist_not_monotone_over_all_ops :
    ¬ ∃ t, histSeq [("loss", [DDouble.val 1])] "loss" ++ t =
        histSeq (applyHistOps [("loss", [DDouble.val 1])] [HistOp.clearAll])
          "loss" := by
  rintro ⟨t, ht⟩
  simp [histSeq, applyHistOps, applyHistOp, clear_all_meas_per_iter] at ht

/-- C3 amended: over any sequence of history-store operations that contains no
`clear_all_meas_per_iter` (i.e. only `add_meas_per_iter` calls), every name's
previously recorded values remain present, in order, as a prefix of the stored
sequence. -/
theorem hist_monotone_without_clear (st : HistState) (ops : List HistOp)
    (name : String) (h : HistOp.clearAll ∉ ops) :
    ∃ t, histSeq st name ++ t = histSeq (applyHistOps st ops) name := by
  induction ops generalizing st with
  | nil => exact ⟨[], List.append_nil _⟩
  | cons op rest ih =>
      have hop : op ≠ HistOp.clearAll := by
        intro he; exact h (he ▸ List.mem_cons_self op rest)
      have hrest : HistOp.clearAll ∉ rest := fun hm =>
        h (List.mem_cons_of_mem op hm)
      cases op with
      | clearAll => exact absurd rfl hop
      | add m l =>
          obtain ⟨t2, h2⟩ := ih (add_meas_per_iter st m l) hrest
          have hstep : histSeq (applyHistOps st (HistOp.add m l :: rest)) name =
              histSeq (applyHistOps (add_meas_per_iter st m l) rest) name := rfl
          rw [hstep, ← h2, histSeq_add_meas_per_iter]
          by_cases hm : name = m
          · exact ⟨[l] ++ t2, by simp [hm, List.append_assoc]⟩
          · exact ⟨t2, by simp [hm]⟩

/-- Witness for C3 amended: a clear-free sequence of two appends extends the
sequence stored under `loss`. -/
theorem hist_monotone_without_clear_witness :
    (HistOp.clearAll ∉ [HistOp.add "loss" (DDouble.val 2),
      HistOp.add "acc" (DDouble.val 3)]) ∧
    ∃ t, histSeq [("loss", [DDouble.val 1])] "loss" ++ t =
      histSeq (applyHistOps [("loss", [DDouble.val 1])]
        [HistOp.add "loss" (DDouble.val 2), HistOp.add "acc" (DDouble.val 3)])
        "loss" :=
  ⟨by decide,
   hist_monotone_without_clear [("loss", [DDouble.val 1])]
     [HistOp.add "loss" (DDouble.val 2), HistOp.add "acc" (DDouble.val 3)]
     "loss" (by decide)⟩

/-! ## Collecting the stores into the payload (C7, C8, C9) -/

/-- The history-collection loop: folding `APIData.add` of the suffixed fields
over the map entries appends, to the accumulator, one field per entry in
iteration order. -/
theorem foldl_add_hist (st : HistState) (acc : APIData) :
    st.foldl (fun acc p => APIData.add acc (p.1 ++ "_hist") (APIValue.arr p.2))
      acc = acc ++ st.map (fun p => (p.1 ++ "_hist", APIValue.arr p.2)) := by
  induction st generalizing acc with
  | nil => simp
  | cons p rest ih =>
      rw [List.foldl_cons, ih]
      simp [APIData.add]

/-- The current-measures collection loop: folding `APIData.add` of the fields
over the map entries appends, to the accumulator, one field per entry in
iteration order. -/
theorem foldl_add_meas_fields (st : MeasState) (acc : APIData) :
    st.foldl (fun acc p => APIData.add acc p.1 (APIValue.num p.2)) acc =
      acc ++ st.map (fun p => (p.1, APIValue.num p.2)) := by
  induction st generalizing acc with
  | nil => simp
  | cons p rest ih =>
      rw [List.foldl_cons, ih]
      simp [APIData.add]

/-- C7: after `clear_all_meas_per_iter`, collecting the history adds an empty
`measure_hist` object (no historical measure fields); one subsequent
`add_meas_per_iter name v` then collect adds exactly the one field
`name_hist ↦ [v]`. -/
theorem clear_all_then_collect (st : HistState) (ad : APIData) (name : String)
    (v : DDouble) :
    collect_measures_history (clear_all_meas_per_iter st) ad =
      APIData.add ad "measure_hist" (APIValue.obj []) ∧
    collect_measures_history
        (add_meas_per_iter (clear_all_meas_per_iter st) name v) ad =
      APIData.add ad "measure_hist"
        (APIValue.obj [(name ++ "_hist", APIValue.arr [v])]) :=
  ⟨rfl, rfl⟩

/-- C8: collecting the measure history adds to the supplied output exactly one
field, `measure_hist`, holding one inner field per history-map entry: the
measure name suffixed with `_hist`, carrying that measure's full sequence in
append order; no other field is produced. -/
theorem collect_measures_history_fields (st : HistState) (ad : APIData) :
    collect_measures_history st ad =
      ad ++ [("measure_hist", APIValue.obj
        (st.map (fun p => (p.1 ++ "_hist", APIValue.arr p.2))))] := by
  unfold collect_measures_history
  rw [foldl_add_hist]
  rfl

/-! ## Distinct-name set sequences (C9) -/

/-- `add_meas` of an absent name appends the fresh pair at the end. -/
theorem add_meas_of_not_mem (st : MeasState) (name : String) (v : DDouble)
    (h : name ∉ st.map Prod.fst) : add_meas st name v = st ++ [(name, v)] := by
  induction st with
  | nil => rfl
  | cons hd rest ih =>
      simp only [List.map_cons, List.mem_cons] at h
      push_neg at h
      obtain ⟨h1, h2⟩ := h
      simp [add_meas, Ne.symm h1, ih h2]

/-- Folding `add_meas` over pairwise-distinct fresh names appends them in
order. -/
theorem foldl_add_meas_of_disjoint (ops : List (String × DDouble))
    (st : MeasState) (hn : (ops.map Prod.fst).Nodup)
    (hd : ∀ k ∈ ops.map Prod.fst, k ∉ st.map Prod.fst) :
    ops.foldl (fun s p => add_meas s p.1 p.2) st = st ++ ops := by
  induction ops generalizing st with
  | nil => simp
  | cons p rest ih =>
      have hp : p.1 ∉ st.map Prod.fst := hd p.1 (by simp)
      rw [List.foldl_cons, add_meas_of_not_mem st p.1 p.2 hp]
      simp only [List.map_cons, List.nodup_cons] at hn
      have hd2 : ∀ k ∈ rest.map Prod.fst, k ∉ (st ++ [(p.1, p.2)]).map Prod.fst := by
        intro k hk
        simp only [List.map_append, List.mem_append, List.map_cons,
          List.map_nil, List.mem_singleton]
        rintro (hks | hkp)
        · exact hd k (List.mem_cons_of_mem _ hk) hks
        · exact hn.1 (hkp ▸ hk)
      rw [ih (st ++ [(p.1, p.2)]) hn.2 hd2]
      simp

/-- The current-measures store after `set` calls on pairwise-distinct names is
exactly those pairs in call order. -/
theorem applyMeasOps_of_nodup (ops : List (String × DDouble))
    (hn : (ops.map Prod.fst).Nodup) : applyMeasOps ops = ops := by
  have h := foldl_add_meas_of_disjoint ops [] hn (by simp)
  simpa [applyMeasOps] using h

/-- C9: after `N` `add_meas` calls on `N` pairwise-distinct names, collecting
the current measures adds to the supplied output the single field `measure`
holding exactly `N` inner fields, one per name, each carrying the value set
for that name. -/
theorem collect_measures_after_distinct_sets (ops : List (String × DDouble))
    (ad : APIData) (hn : (ops.map Prod.fst).Nodup) :
    collect_measures (applyMeasOps ops) ad =
      ad ++ [("measure", APIValue.obj
        (ops.map (fun p => (p.1, APIValue.num p.2))))] ∧
    (ops.map (fun p => (p.1, APIValue.num p.2))).length = ops.length := by
  constructor
  · rw [applyMeasOps_of_nodup ops hn]
    unfold collect_measures
    rw [foldl_add_meas_fields]
    rfl
  · simp

/-- Witness for C9 with two distinct names. -/
theorem collect_measures_after_distinct_sets_witness :
    (([("loss", DDouble.val 1), ("acc", DDouble.val 2)].map Prod.fst).Nodup) ∧
    collect_measures (applyMeasOps [("loss", DDouble.val 1),
      ("acc", DDouble.val 2)]) [] =
      [] ++ [("measure", APIValue.obj [("loss", APIValue.num (DDouble.val 1)),
        ("acc", APIValue.num (DDouble.val 2))])] :=
  ⟨by decide,
   (collect_measures_after_distinct_sets
     [("loss", DDouble.val 1), ("acc", DDouble.val 2)] [] (by decide)).1⟩

/-! ## Constructor defaults (C10) -/

/-- C10: a freshly constructed instance is quiescent: `_tjob_running`,
`_has_train` and `_online` are `false`, `_has_predict` is `true`, and both
measurement maps are empty. -/
theorem ofModel_quiescent {I O M : Type} [Inhabited I] [Inhabited O]
    (mlmodel : M) :
    (MLLib.ofModel (I := I) (O := O) mlmodel)._tjob_running = false ∧
    (MLLib.ofModel (I := I) (O := O) mlmodel)._has_train = false ∧
    (MLLib.ofModel (I := I) (O := O) mlmodel)._has_predict = true ∧
    (MLLib.ofModel (I := I) (O := O) mlmodel)._online = false ∧
    (MLLib.ofModel (I := I) (O := O) mlmodel)._meas = [] ∧
    (MLLib.ofModel (I := I) (O := O) mlmodel)._meas_per_iter = [] :=
  ⟨rfl, rfl, rfl, rfl, rfl, rfl⟩

/-- Witness for C10 at concrete connector and model types. -/
theorem ofModel_quiescent_witness :
    (MLLib.ofModel (I := Unit) (O := Unit) ())._tjob_running = false ∧
    (MLLib.ofModel (I := Unit) (O := Unit) ())._has_train = false ∧
    (MLLib.ofModel (I := Unit) (O := Unit) ())._has_predict = true ∧
    (MLLib.ofModel (I := Unit) (O := Unit) ())._online = false ∧
    (MLLib.ofModel (I := Unit) (O := Unit) ())._meas = [] ∧
    (MLLib.ofModel (I := Unit) (O := Unit) ())._meas_per_iter = [] :=
  ofModel_quiescent ()

end DD
